import Mathlib

/-!
Verification of the incremental MPD protocol decoder (`mpd_protocol/src/codec.rs`)
and the playlist response mapper (`mpd_client/src/responses/playlist.rs`).

Buffers are modelled as `List Nat`, one element per byte.  Rust string slices
are byte slices, so `str::find`, `str::split_at` and friends, which work on
byte indices, translate directly.  A `Rust` panic (out of a `unwrap` on a
failed integer parse, or a slice operation off a character boundary) is
modelled by the value `none` of an `Option` wrapped around a function's
normal result type.
-/

/-- Bytes of an ASCII string literal, used to write concrete buffers. -/
def strB (s : String) : List Nat :=
  s.toList.map Char.toNat

/-- A UTF-8 continuation byte (`0x80 ..= 0xBF`). -/
def isContB (b : Nat) : Bool :=
  0x80 ≤ b && b ≤ 0xBF

/-- Whitespace bytes.  Rust's `str::trim` removes Unicode `White_Space`
characters; restricted to the ASCII range those are exactly the bytes
`0x09 ..= 0x0D` and `0x20`.  Every input a theorem below feeds through a
trimming function is ASCII, where this coincides with Rust's behaviour. -/
def isWsB (b : Nat) : Bool :=
  b == 0x20 || (0x09 ≤ b && b ≤ 0x0D)

/-- ASCII decimal digit, the ASCII part of the regex class `\d`.  All inputs
used below are ASCII. -/
def isDigitB (b : Nat) : Bool :=
  48 ≤ b && b ≤ 57

/-- ASCII word byte, the ASCII part of the regex class `\w`:
`[A-Za-z0-9_]`. -/
def isWordB (b : Nat) : Bool :=
  isDigitB b || (65 ≤ b && b ≤ 90) || (97 ≤ b && b ≤ 122) || b == 95

/-- Leading-whitespace removal, the first half of `str::trim`. -/
def trimStartB : List Nat → List Nat
  | [] => []
  | b :: r => if isWsB b then trimStartB r else b :: r

/-- Trailing-whitespace removal, the second half of `str::trim`. -/
def trimEndB (l : List Nat) : List Nat :=
  (trimStartB l.reverse).reverse

/-- `str::trim`: strip whitespace from both ends. -/
def trimB (l : List Nat) : List Nat :=
  trimEndB (trimStartB l)

/-- `str::split('\n')`: split at every newline byte; `"".split` yields one
empty piece, and a trailing newline yields a trailing empty piece. -/
def splitNl : List Nat → List (List Nat)
  | [] => [[]]
  | b :: r =>
    if b == 10 then [] :: splitNl r
    else
      match splitNl r with
      | [] => [[b]]
      | h :: t => (b :: h) :: t

/-- State machine for `str::from_utf8` validation, following the UTF-8
byte patterns of RFC 3629 (the exact check Rust performs).  `pending` is
the number of continuation bytes still owed for the current character, and
`lo ..= hi` is the admissible range of the next such byte (the first
continuation byte of a 3- or 4-byte character has a restricted range that
excludes overlong encodings, surrogates and values beyond `U+10FFFF`;
subsequent ones are plain `0x80 ..= 0xBF`). -/
def utf8ValidSt : (pending : Nat) → (lo : Nat) → (hi : Nat) → List Nat → Bool
  | 0, _, _, [] => true
  | _ + 1, _, _, [] => false
  | 0, _, _, b :: r =>
    if b ≤ 0x7F then utf8ValidSt 0 0 0 r
    else if 0xC2 ≤ b && b ≤ 0xDF then utf8ValidSt 1 0x80 0xBF r
    else if b == 0xE0 then utf8ValidSt 2 0xA0 0xBF r
    else if (0xE1 ≤ b && b ≤ 0xEC) || b == 0xEE || b == 0xEF then utf8ValidSt 2 0x80 0xBF r
    else if b == 0xED then utf8ValidSt 2 0x80 0x9F r
    else if b == 0xF0 then utf8ValidSt 3 0x90 0xBF r
    else if 0xF1 ≤ b && b ≤ 0xF3 then utf8ValidSt 3 0x80 0xBF r
    else if b == 0xF4 then utf8ValidSt 3 0x80 0x8F r
    else false
  | k + 1, lo, hi, b :: r =>
    if lo ≤ b && b ≤ hi then utf8ValidSt k 0x80 0xBF r else false

/-- Validator for `str::from_utf8`: run the UTF-8 state machine from the
initial state. -/
def utf8Valid (l : List Nat) : Bool :=
  utf8ValidSt 0 0 0 l

/-- `str::is_char_boundary` at index `i` of `l` (with `i ≤ l.length` known):
the index is the end of the slice or does not point into the middle of a
multi-byte character.  Rust's slicing `&s[i..]` and `split_at(i)` panic when
this is false. -/
def charBoundary (l : List Nat) (i : Nat) : Bool :=
  l.length ≤ i || !isContB (l.getD i 0)

/-- The error type of the codec, `MpdCodecError` in `codec.rs`.  The `Io`
variant is omitted: it is only ever produced from a transport error by the
`From` impl, never by `decode` itself. -/
inductive MpdCodecError
  /-- A line was not a `key: value` pair. -/
  | InvalidKeyValueSequence
  /-- A line started like an error but was not correctly formatted. -/
  | InvalidErrorMessage
  /-- A message contained invalid unicode. -/
  | InvalidEncoding
  /-- Did not get the expected greeting as first message. -/
  | InvalidGreeting
deriving DecidableEq, Repr

/-- Decoded message, `Response` in `response.rs` as used by `codec.rs`.
`Simple` carries the contents of the Rust `HashMap<String, Vec<String>>`,
modelled as an association list in key-first-insertion order; a `HashMap`
itself is unordered, so theorems below only ever compare whole maps built
by the same insertion routine or look up single keys, both of which are
insensitive to the representation order. -/
inductive Response
  | Empty
  | Simple (kv : List (List Nat × List (List Nat)))
  | Error (error_code : Nat) (command_list_index : Nat)
          (current_command : List Nat) (message : List Nat)
deriving DecidableEq, Repr

/-- `map.entry(key).or_insert_with(Vec::new).push(value)`: append `v` to the
value vector of `k`, inserting an empty vector first if `k` is absent. -/
def kvInsert : List (List Nat × List (List Nat)) → List Nat → List Nat →
    List (List Nat × List (List Nat))
  | [], k, v => [(k, [v])]
  | (k', vs) :: t, k, v =>
    if k' = k then (k', vs ++ [v]) :: t else (k', vs) :: kvInsert t k v

/-- Loop body of `parse_key_value_response`, one iteration per line.
`none` models a panic: `line.split_at(i)` with `i` off a character boundary,
or the slice `&value[1..]` off one.  The Rust condition
`i.is_none() || i == Some(line.len() - 1)` short-circuits, so
`line.len() - 1` is never evaluated (and never underflows) when no colon was
found; the `match` below mirrors that order. -/
def kvLines : List (List Nat) → List (List Nat × List (List Nat)) →
    Option (Except MpdCodecError (List (List Nat × List (List Nat))))
  | [], map => some (.ok map)
  | line :: rest, map =>
    match (trimB line).findIdx? (fun b => b == 58) with
    | none => some (.error .InvalidKeyValueSequence)
    | some i =>
      if i = line.length - 1 then some (.error .InvalidKeyValueSequence)
      else if !charBoundary line i then none
      else
        let key := line.take i
        let value := line.drop i
        if !charBoundary value 1 then none
        else kvLines rest (kvInsert map key (trimB (value.drop 1)))

/-- `parse_key_value_response` from `codec.rs`: validate UTF-8, split the
body at newlines, and for each line find the first `:` of the trimmed line,
reject if absent or if its index equals the untrimmed line's length minus
one, and otherwise split the untrimmed line at that index, taking the text
before it as key and the text after it (skipping one byte, then trimmed) as
value. -/
def parse_key_value_response (bytes : List Nat) :
    Option (Except MpdCodecError (List (List Nat × List (List Nat)))) :=
  if utf8Valid bytes then kvLines (splitNl bytes) []
  else some (.error .InvalidEncoding)

/-- `str::strip_prefix`-like helper: drop an expected literal byte sequence. -/
def dropLit : List Nat → List Nat → Option (List Nat)
  | [], l => some l
  | p :: ps, b :: l => if b == p then dropLit ps l else none
  | _ :: _, [] => none

/-- The regex `^ACK \[(\d+)@(\d+)\] \{(\w*?)\} (.+)$` of `parse_error_line`,
as a direct matcher.  `(\d+)` greedy before `@` is a maximal digit run
followed by a literal `@` (a digit can never match `@`); `(\w*?)` lazy
before `\}` is the word-byte run up to the first non-word byte, which must
be `}`; `(.+)$` is a non-empty remainder with no newline (`.` never matches
a newline and `$` anchors at the end of the text).  Character classes are
used in their ASCII ranges; every theorem below applies the matcher to
ASCII input only. -/
def matchErrorRegex (l : List Nat) :
    Option (List Nat × List Nat × List Nat × List Nat) :=
  match dropLit (strB "ACK [") l with
  | none => none
  | some r1 =>
    let d1 := r1.takeWhile isDigitB
    let r2 := r1.dropWhile isDigitB
    if d1.isEmpty then none
    else
      match dropLit [64] r2 with
      | none => none
      | some r3 =>
        let d2 := r3.takeWhile isDigitB
        let r4 := r3.dropWhile isDigitB
        if d2.isEmpty then none
        else
          match dropLit (strB "] ") r4 with
          | none => none
          | some r5 =>
            match dropLit [123] r5 with
            | none => none
            | some r6 =>
              let cmd := r6.takeWhile isWordB
              let r7 := r6.dropWhile isWordB
              match dropLit [125, 32] r7 with
              | none => none
              | some msg =>
                if msg.isEmpty || msg.contains 10 then none
                else some (d1, d2, cmd, msg)

/-- Decimal value of an ASCII digit run. -/
def digitsToNat (l : List Nat) : Nat :=
  l.foldl (fun a b => a * 10 + (b - 48)) 0

/-- `str::parse::<u64>` on a non-empty ASCII digit run: the value when it
fits in 64 bits, otherwise a parse error (`none`). -/
def parseU64 (l : List Nat) : Option Nat :=
  if digitsToNat l < 2 ^ 64 then some (digitsToNat l) else none

/-- `parse_error_line` from `codec.rs`: validate UTF-8, match the fixed
error-line regex, and build `Response::Error` from the four captures.  The
numeric captures go through `.parse().unwrap()`; the `unwrap` panics
(modelled as `none`) when the digit run does not fit the numeric field.
The exact field type lives in `response.rs`, which is not part of the
examined sources; it is modelled from the spec's "numeric error code" as a
64-bit unsigned integer, the overflow panic existing for every bounded
width. -/
def parse_error_line (bytes : List Nat) : Option (Except MpdCodecError Response) :=
  if utf8Valid bytes then
    match matchErrorRegex bytes with
    | none => some (.error .InvalidErrorMessage)
    | some (d1, d2, cmd, msg) =>
      match parseU64 d1, parseU64 d2 with
      | some c, some i => some (.ok (.Error c i cmd msg))
      | _, _ => none
  else some (.error .InvalidEncoding)

/-- Decoder state, the `MpdCodec` struct of `codec.rs`. -/
structure MpdCodec where
  examined_up_to : Nat
  parsing_error : Bool
  greeted : Bool
deriving DecidableEq, Repr

/-- `MpdCodec::new()` (equal to `Default::default()`). -/
def MpdCodec.new : MpdCodec := ⟨0, false, false⟩

/-- `MpdCodec::new_greeted()`: greeting already validated. -/
def MpdCodec.new_greeted : MpdCodec := ⟨0, false, true⟩

deriving instance DecidableEq for Except

/-- One `decode` call's outcome: the returned
`Result<Option<Response>, MpdCodecError>`, the buffer as left behind
(`decode` removes consumed bytes from the front), and the mutated state. -/
structure DecodeOut where
  result : Except MpdCodecError (Option Response)
  rest : List Nat
  state : MpdCodec
deriving DecidableEq, Repr

/-- The bytes `b"OK\n"`. -/
def okNlB : List Nat := [79, 75, 10]

/-- The bytes `b"ACK"`. -/
def ackB : List Nat := [65, 67, 75]

/-- The bytes `b"OK MPD"`. -/
def okMpdB : List Nat := [79, 75, 32, 77, 80, 68]

/-- The post-greeting scan loop of `MpdCodec::decode`
(`for window_start in self.examined_up_to..src.len()`).  Inside the Rust
loop `self.examined_up_to` always equals `window_start`: the loop starts at
`self.examined_up_to` and both advance by one per iteration, so a single
counter `w` stands for both.  The argument `s` is maintained equal to
`src.drop w`; the current window is its first three bytes, and the loop
breaks (`window_start + 3 > src.len()`) exactly when fewer than three bytes
remain, after which `self.examined_up_to /= 3` runs.  Branches, in source
order:
* window at offset 0 equal to `ACK`: set `parsing_error`, keep scanning;
* `parsing_error` set and the window's last byte a newline: the error line
  is `src[..w+2]`; state is reset before `parse_error_line(..)?`, so on a
  parse error the trailing newline has not yet been skipped;
* window equal to `OK\n` at offset 0: empty response, consume three bytes;
* window equal to `OK\n` preceded by a newline: the message body is
  `src[..w-1]` (the split message minus the four terminator bytes); on a
  key-value parse error the `?` returns before `self.examined_up_to = 0`,
  leaving the counter at `w`;
* otherwise continue with the next window. -/
def scanFrom (src : List Nat) : Nat → Bool → List Nat → Option DecodeOut
  | w, pe, b0 :: b1 :: b2 :: rest =>
    if w == 0 && [b0, b1, b2] == ackB then
      scanFrom src (w + 1) true (b1 :: b2 :: rest)
    else if pe && b2 == 10 then
      match parse_error_line (src.take (w + 2)) with
      | none => none
      | some (.ok r) => some ⟨.ok (some r), src.drop (w + 3), ⟨0, false, true⟩⟩
      | some (.error e) => some ⟨.error e, src.drop (w + 2), ⟨0, false, true⟩⟩
    else if [b0, b1, b2] == okNlB then
      if w == 0 then
        some ⟨.ok (some .Empty), src.drop 3, ⟨0, pe, true⟩⟩
      else if src.getD (w - 1) 0 == 10 then
        match parse_key_value_response (src.take (w - 1)) with
        | none => none
        | some (.ok kv) =>
          some ⟨.ok (some (.Simple kv)), src.drop (w + 3), ⟨0, pe, true⟩⟩
        | some (.error e) =>
          some ⟨.error e, src.drop (w + 3), ⟨w, pe, true⟩⟩
      else scanFrom src (w + 1) pe (b1 :: b2 :: rest)
    else scanFrom src (w + 1) pe (b1 :: b2 :: rest)
  | w, pe, _ => some ⟨.ok none, src, ⟨w / 3, pe, true⟩⟩

/-- `MpdCodec::decode`.  While not greeted, a newline is searched in
`src[self.examined_up_to..]`; its position `i` is relative to that slice,
and the code then removes `src[..i+1]` and checks `i >= 6` and
`src[..6] == b"OK MPD"` against that prefix (both uses of the relative `i`
against the absolute buffer are taken over verbatim).  The slice
`src[self.examined_up_to..]` itself panics (`none`) if the counter exceeds
the buffer length.  On a validated greeting the same call falls through to
the scan loop on the remaining buffer. -/
def MpdCodec.decode (c : MpdCodec) (src : List Nat) : Option DecodeOut :=
  if !c.greeted then
    if src.length < c.examined_up_to then none
    else
      match (src.drop c.examined_up_to).findIdx? (fun b => b == 10) with
      | some i =>
        let header := src.take (i + 1)
        let rest := src.drop (i + 1)
        if 6 ≤ i && header.take 6 == okMpdB then
          scanFrom rest 0 c.parsing_error rest
        else some ⟨.error .InvalidGreeting, rest, ⟨0, c.parsing_error, false⟩⟩
      | none => some ⟨.ok none, src, ⟨src.length, c.parsing_error, false⟩⟩
  else scanFrom src c.examined_up_to c.parsing_error (src.drop c.examined_up_to)

/-- Modelled from the spec: `TypedResponseError` lives in
`mpd_client/src/responses.rs`, which is not among the examined sources; the
spec only requires that typed mappers "fail explicitly if an unexpected key
appears where a specific one was required", so the single constructor
carries `TypedResponseError::unexpected_field(expected, found)`. -/
inductive TypedResponseError
  | unexpected_field (expected : String) (found : String)
deriving DecidableEq, Repr

/-- Modelled from the spec: `Timestamp` and `Timestamp::from_value` live in
`mpd_client/src/responses.rs`, which is not among the examined sources, and
the spec does not describe any timestamp validation; the timestamp is
modelled as the raw server value. -/
structure Timestamp where
  raw : String
deriving DecidableEq, Repr

/-- Modelled from the spec (see `Timestamp`): accept the raw field value. -/
def Timestamp.from_value (v : String) (_field : String) :
    Except TypedResponseError Timestamp :=
  .ok ⟨v⟩

/-- A stored playlist (`mpd_client/src/responses/playlist.rs`). -/
structure Playlist where
  name : String
  last_modified : Timestamp
deriving DecidableEq, Repr

/-- The field loop of `Playlist::parse_frame`, with the `current_name`
state explicit.  With a pending name, the next key must be `Last-Modified`
(producing a record) and anything else is an unexpected-field error; with
no pending name, the next key must be `playlist` (remembered as the name)
and anything else is an unexpected-field error.  The loop ends in `Ok`
whatever `current_name` holds. -/
def Playlist.parseGo : Option String → List (String × String) →
    Except TypedResponseError (List Playlist)
  | _, [] => .ok []
  | some name, (key, value) :: rest =>
    if key = "Last-Modified" then
      match Timestamp.from_value value "Last-Modified" with
      | .error e => .error e
      | .ok last_modified =>
        match Playlist.parseGo none rest with
        | .error e => .error e
        | .ok tail => .ok ({ name := name, last_modified := last_modified } :: tail)
    else .error (.unexpected_field "Last-Modified" key)
  | none, (key, value) :: rest =>
    if key = "playlist" then Playlist.parseGo (some value) rest
    else .error (.unexpected_field "playlist" key)

/-- `Playlist::parse_frame` over the frame's field sequence.  The
`field_count` parameter of the Rust function only pre-sizes the output
vector (`Vec::with_capacity`) and has no observable effect, so it is
omitted. -/
def Playlist.parse_frame (frame : List (String × String)) :
    Except TypedResponseError (List Playlist) :=
  Playlist.parseGo none frame

/-- The field sequence `playlist: n1, Last-Modified: t1, playlist: n2, ...`
produced by a well-formed `listplaylists` response with the given
name/timestamp entries. -/
def playlistFields (entries : List (String × String)) : List (String × String) :=
  entries.flatMap (fun e => [("playlist", e.1), ("Last-Modified", e.2)])

/-- The playlist records those entries should decode to, in order. -/
def playlistRecords (entries : List (String × String)) : List Playlist :=
  entries.map (fun e => { name := e.1, last_modified := ⟨e.2⟩ })

/-- C1.  The claim states chunking invariance: decoding a complete,
well-formed stream delivered as one chunk and delivered split at any byte
boundary yields the same message sequence.  The code violates it: for the
stream `OK MPD 0.21.0\nOK\n`, a single chunk yields the `Empty` message
with an emptied buffer, but delivering `OK M` first (scan cursor 4) and the
rest second makes the greeting handler remove only `i + 1 = 10` bytes —
`i` being the newline position relative to the cursor, used as an absolute
offset — so the tail `1.0\n` of the greeting line is left in the buffer and
the subsequent terminator scan fails with `InvalidKeyValueSequence`. -/
theorem C1_chunking_divergence :
    MpdCodec.new.decode (strB "OK MPD 0.21.0\nOK\n") =
      some ⟨.ok (some .Empty), [], ⟨0, false, true⟩⟩ ∧
    MpdCodec.new.decode (strB "OK M") =
      some ⟨.ok none, strB "OK M", ⟨4, false, false⟩⟩ ∧
    MpdCodec.decode ⟨4, false, false⟩ (strB "OK MPD 0.21.0\nOK\n") =
      some ⟨.error .InvalidKeyValueSequence, [], ⟨4, false, true⟩⟩ := by
  refine ⟨by decide, by decide, by decide⟩

/-- C2 counterexample.  The claim states that a body with interleaved
repeated keys decodes to the ordered pair sequence
`[(file,a),(title,x),(file,b),(title,y)]` rather than a keyed map that
discards inter-key order.  The code returns a `HashMap<String, Vec<String>>`:
the interleaved body and the regrouped body `file: a, file: b, title: x,
title: y` — whose ordered pair sequences differ — decode to the identical
map, so the interleaving is unrecoverable and the decoded result cannot be
the claimed ordered sequence. -/
theorem C2_interleaving_lost :
    MpdCodec.new_greeted.decode (strB "file: a\ntitle: x\nfile: b\ntitle: y\nOK\n") =
      MpdCodec.new_greeted.decode (strB "file: a\nfile: b\ntitle: x\ntitle: y\nOK\n") := by
  decide

/-- C2 as amended.  The decoded result of the interleaved body is the keyed
map `file ↦ [a, b], title ↦ [x, y]` — per-key value order preserved, the
interleaving between different keys discarded (the differently interleaved
body below yields the same map). -/
theorem C2_keyed_map_result :
    MpdCodec.new_greeted.decode (strB "file: a\ntitle: x\nfile: b\ntitle: y\nOK\n") =
      some ⟨.ok (some (.Simple [(strB "file", [strB "a", strB "b"]),
        (strB "title", [strB "x", strB "y"])])), [], ⟨0, false, true⟩⟩ ∧
    MpdCodec.new_greeted.decode (strB "file: a\nfile: b\ntitle: x\ntitle: y\nOK\n") =
      some ⟨.ok (some (.Simple [(strB "file", [strB "a", strB "b"]),
        (strB "title", [strB "x", strB "y"])])), [], ⟨0, false, true⟩⟩ := by
  refine ⟨by decide, by decide⟩

/-- C3.  The claim states that with the greeting pending and a newline in
the buffer, decode removes exactly the first line including its newline,
regardless of the recorded scan cursor.  The code violates it: after a
first call on `OK M` records cursor 4, a second call on the full greeting
line `OK MPD 0.21.0\n` (14 bytes) finds the newline at position 9 relative
to the cursor and removes only `src[..10]`, leaving the line tail `1.0\n`
in the buffer (and then scans it as message content). -/
theorem C3_greeting_partial_line_bug :
    MpdCodec.new.decode (strB "OK M") =
      some ⟨.ok none, strB "OK M", ⟨4, false, false⟩⟩ ∧
    MpdCodec.decode ⟨4, false, false⟩ (strB "OK MPD 0.21.0\n") =
      some ⟨.ok none, strB "1.0\n", ⟨0, false, true⟩⟩ := by
  refine ⟨by decide, by decide⟩

/-- C5.  The claim states that an error line whose numeric fields are not
parseable as integers of the target type fails with the malformed-error
value and never terminates abnormally.  The code matches the shape first
and then calls `.parse().unwrap()`: on `2^64 = 18446744073709551616`, which
the regex accepts but no 64-bit (indeed, no bounded) integer parse can
represent, the `unwrap` panics — modelled by `none`, reachable from
`decode` itself.  Well-shaped lines succeed with the four captures, and
shape mismatches do return the distinct malformed-error value. -/
theorem C5_error_line_outcomes :
    parse_error_line (strB "ACK [5@0] {play} not playing") =
      some (.ok (.Error 5 0 (strB "play") (strB "not playing"))) ∧
    parse_error_line (strB "ACK oops") = some (.error .InvalidErrorMessage) ∧
    parse_error_line (strB "ACK [18446744073709551616@0] {play} not playing") = none ∧
    MpdCodec.new_greeted.decode (strB "ACK [18446744073709551616@0] {play} x\n") = none := by
  refine ⟨by decide, by decide, by decide, by decide⟩

/-- C6.  The claim (like the code's own comment) states that after an
unsuccessful scan the cursor equals the number of fully examined 3-byte
windows rounded down to the nearest multiple of 3.  The code instead
divides the count by 3 (`self.examined_up_to /= 3`): on the 6-byte
terminator-free buffer `abcdef`, 4 windows are fully examined, the claim
demands cursor 3, and the code leaves cursor `4 / 3 = 1`.  (The incomplete
sentinel and the untouched buffer are as claimed.) -/
theorem C6_cursor_division_bug :
    MpdCodec.new_greeted.decode (strB "abcdef") =
      some ⟨.ok none, strB "abcdef", ⟨1, false, true⟩⟩ ∧
    (1 : Nat) ≠ 4 - 4 % 3 := by
  refine ⟨by decide, by decide⟩

/-- C7.  The claim states the invariant `0 ≤ cursor ≤ buffer.length` after
every decode call, parse errors included, with a reset to 0 whenever a
complete message is removed.  The code violates it: on the buffer `:\nOK\n`
a complete message is removed from the buffer, but
`parse_key_value_response` fails and the `?` returns before
`self.examined_up_to = 0` runs, so the call ends with cursor 2 and an empty
buffer, `2 ≤ 0` being false. -/
theorem C7_cursor_invariant_violation :
    MpdCodec.new_greeted.decode (strB ":\nOK\n") =
      some ⟨.error .InvalidKeyValueSequence, [], ⟨2, false, true⟩⟩ ∧
    ¬ (2 : Nat) ≤ ([] : List Nat).length := by
  refine ⟨by decide, by decide⟩

theorem parse_error_line_ok_shape (b : List Nat) (r : Response)
    (h : parse_error_line b = some (.ok r)) :
    ∃ c i cm m, r = .Error c i cm m := by
  unfold parse_error_line at h
  split at h
  · split at h
    · simp at h
    · split at h
      · simp at h
        exact ⟨_, _, _, _, h.symm⟩
      · simp at h
  · simp at h

theorem scanFrom_simple (src : List Nat) (w : Nat) (pe : Bool) (s : List Nat)
    (kv : List (List Nat × List (List Nat))) (rest : List Nat) (st : MpdCodec)
    (hs : src.drop w = s)
    (h : scanFrom src w pe s = some ⟨.ok (some (.Simple kv)), rest, st⟩) :
    ∃ wq, w ≤ wq ∧ 1 ≤ wq ∧ src.getD (wq - 1) 0 = 10 ∧
      (src.drop wq).take 3 = okNlB ∧ rest = src.drop (wq + 3) := by
  induction w, pe, s using scanFrom.induct src with
  | case1 w pe b0 b1 b2 rst hc ih =>
    simp only [scanFrom, hc, if_true] at h
    have hdrop : List.drop (w + 1) src = b1 :: b2 :: rst := by
      rw [← List.tail_drop, hs]
      rfl
    obtain ⟨wq, h1, h2, h3, h4, h5⟩ := ih hdrop h
    exact ⟨wq, Nat.le_trans (Nat.le_succ w) h1, h2, h3, h4, h5⟩
  | case2 w pe b0 b1 b2 rst hn1 hc hp =>
    simp [scanFrom, hn1, hc, hp] at h
  | case3 w pe b0 b1 b2 rst hn1 hc r hp =>
    obtain ⟨c, i, cm, m, hr⟩ := parse_error_line_ok_shape _ _ hp
    subst hr
    simp [scanFrom, hn1, hc, hp] at h
  | case4 w pe b0 b1 b2 rst hn1 hc e hp =>
    simp [scanFrom, hn1, hc, hp] at h
  | case5 w pe b0 b1 b2 rst hn1 hn2 hok hw =>
    obtain ⟨hb0, hb1, hb2⟩ : b0 = 79 ∧ b1 = 75 ∧ b2 = 10 := by
      simpa [okNlB] using hok
    subst hb0 hb1 hb2
    have hpe : pe = false := by simpa using hn2
    subst hpe
    simp [scanFrom, hn1, hw, ackB, okNlB] at h
  | case6 w pe b0 b1 b2 rst hn1 hn2 hok hw hnl hp =>
    have hnl2 : src[w - 1]?.getD 0 = 10 := by simpa using hnl
    simp [scanFrom, hn1, hn2, hok, hw, hnl2, hp] at h
  | case7 w pe b0 b1 b2 rst hn1 hn2 hok hw hnl kv2 hp =>
    have hnl2 : src[w - 1]?.getD 0 = 10 := by simpa using hnl
    simp [scanFrom, hn1, hn2, hok, hw, hnl2, hp] at h
    refine ⟨w, Nat.le_refl w, ?_, ?_, ?_, ?_⟩
    · have hw0 : w ≠ 0 := by simpa using hw
      omega
    · simpa using hnl
    · rw [hs]
      simpa using hok
    · exact h.2.1.symm
  | case8 w pe b0 b1 b2 rst hn1 hn2 hok hw hnl e hp =>
    have hnl2 : src[w - 1]?.getD 0 = 10 := by simpa using hnl
    simp [scanFrom, hn1, hn2, hok, hw, hnl2, hp] at h
  | case9 w pe b0 b1 b2 rst hn1 hn2 hok hw hnl ih =>
    have hnl2 : ¬ src[w - 1]?.getD 0 = 10 := by simpa using hnl
    simp [scanFrom, hn1, hn2, hok, hw, hnl2] at h
    have hdrop : List.drop (w + 1) src = b1 :: b2 :: rst := by
      rw [← List.tail_drop, hs]
      rfl
    obtain ⟨wq, h1, h2, h3, h4, h5⟩ := ih hdrop h
    exact ⟨wq, Nat.le_trans (Nat.le_succ w) h1, h2, h3, h4, h5⟩
  | case10 w pe b0 b1 b2 rst hn1 hn2 hok ih =>
    simp [scanFrom, hn1, hn2, hok] at h
    have hdrop : List.drop (w + 1) src = b1 :: b2 :: rst := by
      rw [← List.tail_drop, hs]
      rfl
    obtain ⟨wq, h1, h2, h3, h4, h5⟩ := ih hdrop h
    exact ⟨wq, Nat.le_trans (Nat.le_succ w) h1, h2, h3, h4, h5⟩
  | case11 t w pe hx =>
    cases t with
    | nil => simp [scanFrom] at h
    | cons a t1 =>
      cases t1 with
      | nil => simp [scanFrom] at h
      | cons b t2 =>
        cases t2 with
        | nil => simp [scanFrom] at h
        | cons c t3 => exact (hx a b c t3 rfl).elim

theorem scanFrom_empty (src : List Nat) (w : Nat) (pe : Bool) (s : List Nat)
    (rest : List Nat) (st : MpdCodec)
    (hs : src.drop w = s)
    (h : scanFrom src w pe s = some ⟨.ok (some .Empty), rest, st⟩) :
    w = 0 ∧ src.take 3 = okNlB ∧ rest = src.drop 3 := by
  induction w, pe, s using scanFrom.induct src with
  | case1 w pe b0 b1 b2 rst hc ih =>
    simp only [scanFrom, hc, if_true] at h
    have hdrop : List.drop (w + 1) src = b1 :: b2 :: rst := by
      rw [← List.tail_drop, hs]
      rfl
    obtain ⟨h1, _, _⟩ := ih hdrop h
    omega
  | case2 w pe b0 b1 b2 rst hn1 hc hp =>
    simp [scanFrom, hn1, hc, hp] at h
  | case3 w pe b0 b1 b2 rst hn1 hc r hp =>
    obtain ⟨c, i, cm, m, hr⟩ := parse_error_line_ok_shape _ _ hp
    subst hr
    simp [scanFrom, hn1, hc, hp] at h
  | case4 w pe b0 b1 b2 rst hn1 hc e hp =>
    simp [scanFrom, hn1, hc, hp] at h
  | case5 w pe b0 b1 b2 rst hn1 hn2 hok hw =>
    obtain ⟨hb0, hb1, hb2⟩ : b0 = 79 ∧ b1 = 75 ∧ b2 = 10 := by
      simpa [okNlB] using hok
    subst hb0 hb1 hb2
    have hpe : pe = false := by simpa using hn2
    subst hpe
    have hw0 : w = 0 := by simpa using hw
    subst hw0
    simp only [scanFrom, ackB, okNlB] at h
    simp at h
    refine ⟨rfl, ?_, h.1.symm⟩
    have : src = 79 :: 75 :: 10 :: rst := by simpa using hs
    rw [this]
    rfl
  | case6 w pe b0 b1 b2 rst hn1 hn2 hok hw hnl hp =>
    have hnl2 : src[w - 1]?.getD 0 = 10 := by simpa using hnl
    simp [scanFrom, hn1, hn2, hok, hw, hnl2, hp] at h
  | case7 w pe b0 b1 b2 rst hn1 hn2 hok hw hnl kv2 hp =>
    have hnl2 : src[w - 1]?.getD 0 = 10 := by simpa using hnl
    simp [scanFrom, hn1, hn2, hok, hw, hnl2, hp] at h
  | case8 w pe b0 b1 b2 rst hn1 hn2 hok hw hnl e hp =>
    have hnl2 : src[w - 1]?.getD 0 = 10 := by simpa using hnl
    simp [scanFrom, hn1, hn2, hok, hw, hnl2, hp] at h
  | case9 w pe b0 b1 b2 rst hn1 hn2 hok hw hnl ih =>
    have hnl2 : ¬ src[w - 1]?.getD 0 = 10 := by simpa using hnl
    simp [scanFrom, hn1, hn2, hok, hw, hnl2] at h
    have hdrop : List.drop (w + 1) src = b1 :: b2 :: rst := by
      rw [← List.tail_drop, hs]
      rfl
    obtain ⟨h1, _, _⟩ := ih hdrop h
    omega
  | case10 w pe b0 b1 b2 rst hn1 hn2 hok ih =>
    simp [scanFrom, hn1, hn2, hok] at h
    have hdrop : List.drop (w + 1) src = b1 :: b2 :: rst := by
      rw [← List.tail_drop, hs]
      rfl
    obtain ⟨h1, _, _⟩ := ih hdrop h
    omega
  | case11 t w pe hx =>
    cases t with
    | nil => simp [scanFrom] at h
    | cons a t1 =>
      cases t1 with
      | nil => simp [scanFrom] at h
      | cons b t2 =>
        cases t2 with
        | nil => simp [scanFrom] at h
        | cons c t3 => exact (hx a b c t3 rfl).elim

/-- C4.  A success-terminator window only counts when it is at message
offset 0 or immediately preceded by a newline.  First conjunct: the
claim's example — `comment: OK\n` followed by the true terminator decodes
to a `Fields` message with value `OK` for key `comment`, not a premature
`Empty`.  Second: whenever a post-greeting decode returns a `Fields`
(`Simple`) message, the consumed bytes end in a `OK\n` window whose
preceding byte is a newline.  Third: whenever it returns `Empty`, the
terminator window sits at absolute offset 0 of the message. -/
theorem C4_terminator_position_rule :
    (MpdCodec.new_greeted.decode (strB "comment: OK\nOK\n") =
      some ⟨.ok (some (.Simple [(strB "comment", [strB "OK"])])), [], ⟨0, false, true⟩⟩) ∧
    (∀ (c : MpdCodec) (src : List Nat) kv rest st, c.greeted = true →
      c.decode src = some ⟨.ok (some (.Simple kv)), rest, st⟩ →
      ∃ wq, 1 ≤ wq ∧ src.getD (wq - 1) 0 = 10 ∧
        (src.drop wq).take 3 = okNlB ∧ rest = src.drop (wq + 3)) ∧
    (∀ (c : MpdCodec) (src : List Nat) rest st, c.greeted = true →
      c.decode src = some ⟨.ok (some .Empty), rest, st⟩ →
      c.examined_up_to = 0 ∧ src.take 3 = okNlB ∧ rest = src.drop 3) := by
  refine ⟨by decide, ?_, ?_⟩
  · intro c src kv rest st hg h
    simp only [MpdCodec.decode, hg, Bool.not_true, Bool.false_eq_true, if_false] at h
    obtain ⟨wq, _, h2, h3, h4, h5⟩ := scanFrom_simple src c.examined_up_to
      c.parsing_error _ kv rest st rfl h
    exact ⟨wq, h2, h3, h4, h5⟩
  · intro c src rest st hg h
    simp only [MpdCodec.decode, hg, Bool.not_true, Bool.false_eq_true, if_false] at h
    obtain ⟨h1, h2, h3⟩ := scanFrom_empty src c.examined_up_to c.parsing_error _ rest st rfl h
    exact ⟨h1, h2, h3⟩

/-- Witness for C4: instantiating the positional rule on the concrete
message `a: b\nOK\n` decoded by a fresh greeted codec. -/
theorem C4_terminator_position_rule_witness :
    ∃ wq, 1 ≤ wq ∧ (strB "a: b\nOK\n").getD (wq - 1) 0 = 10 ∧
      ((strB "a: b\nOK\n").drop wq).take 3 = okNlB ∧
      ([] : List Nat) = (strB "a: b\nOK\n").drop (wq + 3) :=
  C4_terminator_position_rule.2.1 MpdCodec.new_greeted (strB "a: b\nOK\n")
    [(strB "a", [strB "b"])] [] ⟨0, false, true⟩ (by decide) (by decide)

theorem ascii_utf8Valid (l : List Nat) (h : ∀ b ∈ l, b < 128) : utf8Valid l = true := by
  unfold utf8Valid
  induction l with
  | nil => rfl
  | cons b r ih =>
    rw [utf8ValidSt, if_pos (by have hb := h b (List.mem_cons_self b r); omega : b ≤ 0x7F)]
    exact ih (fun x hx => h x (List.mem_cons_of_mem b hx))

theorem splitNl_single (l : List Nat) (h : ∀ b ∈ l, b ≠ 10) : splitNl l = [l] := by
  induction l with
  | nil => rfl
  | cons b r ih =>
    rw [splitNl, if_neg (by simpa using h b (List.mem_cons_self b r))]
    rw [ih (fun x hx => h x (List.mem_cons_of_mem b hx))]

theorem trimStartB_eq_of_head (l : List Nat)
    (h : ∀ b, l.head? = some b → isWsB b = false) : trimStartB l = l := by
  cases l with
  | nil => rfl
  | cons b r => rw [trimStartB, if_neg (by simp [h b rfl])]

theorem trimStartB_exists_prefix (l : List Nat) :
    ∃ w, l = w ++ trimStartB l ∧ ∀ b ∈ w, isWsB b = true := by
  induction l with
  | nil => exact ⟨[], rfl, by simp⟩
  | cons b r ih =>
    by_cases hb : isWsB b = true
    · obtain ⟨w, hw1, hw2⟩ := ih
      refine ⟨b :: w, ?_, ?_⟩
      · rw [trimStartB, if_pos hb, List.cons_append, ← hw1]
      · intro x hx
        rcases List.mem_cons.mp hx with h1 | h2
        · rw [h1]; exact hb
        · exact hw2 x h2
    · refine ⟨[], ?_, by simp⟩
      rw [trimStartB, if_neg hb]
      rfl

theorem findIdx?_colon_trimEndB (l : List Nat) :
    (trimEndB l).findIdx? (fun b => b == 58) = l.findIdx? (fun b => b == 58) := by
  obtain ⟨w, hw1, hw2⟩ := trimStartB_exists_prefix l.reverse
  have hl : l = trimEndB l ++ w.reverse := by
    conv_lhs => rw [← List.reverse_reverse l, hw1]
    rw [List.reverse_append]
    rfl
  conv_rhs => rw [hl]
  rw [List.findIdx?_append]
  have hnone : (w.reverse).findIdx? (fun b => b == 58) = none := by
    rw [List.findIdx?_eq_none_iff]
    intro x hx
    have hws := hw2 x (List.mem_reverse.mp hx)
    have hx2 : x = 0x20 ∨ (0x09 ≤ x ∧ x ≤ 0x0D) := by simpa [isWsB] using hws
    simp only [beq_eq_false_iff_ne, ne_eq]
    omega
  rw [hnone]
  simp

theorem ascii_charBoundary (l : List Nat) (i : Nat) (h : ∀ b ∈ l, b < 128) :
    charBoundary l i = true := by
  unfold charBoundary
  by_cases hi : l.length ≤ i
  · simp [hi]
  · have hlt : i < l.length := by omega
    have hmem : l.getD i 0 ∈ l := by
      rw [List.getD_eq_getElem l 0 hlt]
      exact List.getElem_mem hlt
    have hx : l.getD i 0 < 128 := h _ hmem
    have hc : isContB (l.getD i 0) = false := by
      unfold isContB
      have hn : ¬ (0x80 ≤ l.getD i 0) := by omega
      rw [decide_eq_false hn, Bool.false_and]
    rw [hc]
    simp

/-- C8 as amended: the parser processes every line, including empty ones
(first conjunct: a body with an empty line fails instead of skipping it);
for a line without leading whitespace — where the colon index of the
trimmed line coincides with that of the line itself — it fails with the
malformed-key-value error exactly when the line has no `:` after trimming
or its first `:` is the line's last byte, and otherwise records the pair
(text before the `:`, text after the `:` trimmed).  Lines with leading
whitespace are split at the colon index of the trimmed line, which lands
short of the colon (see the counterexample). -/
theorem C8_line_parser_amended :
    parse_key_value_response (strB "a: b\n\nc: d") =
      some (.error .InvalidKeyValueSequence) ∧
    ∀ line : List Nat,
      (∀ b ∈ line, b < 128) →
      (∀ b ∈ line, b ≠ 10) →
      (∀ b, line.head? = some b → isWsB b = false) →
      parse_key_value_response line =
        match line.findIdx? (fun b => b == 58) with
        | none => some (.error .InvalidKeyValueSequence)
        | some i =>
          if i = line.length - 1 then some (.error .InvalidKeyValueSequence)
          else some (.ok [(line.take i, [trimB (line.drop (i + 1))])]) := by
  refine ⟨by decide, ?_⟩
  intro line h128 h10 hws
  have hutf := ascii_utf8Valid line h128
  unfold parse_key_value_response
  rw [hutf, if_pos rfl, splitNl_single line h10]
  have htr : trimB line = trimEndB line := by
    unfold trimB
    rw [trimStartB_eq_of_head line hws]
  rw [kvLines, htr, findIdx?_colon_trimEndB]
  cases hidx : line.findIdx? (fun b => b == 58) with
  | none => rfl
  | some i =>
    dsimp only
    by_cases hlast : i = line.length - 1
    · rw [if_pos hlast, if_pos hlast]
    · rw [if_neg hlast, if_neg hlast]
      have hcb1 : charBoundary line i = true := ascii_charBoundary line i h128
      have hcb2 : charBoundary (line.drop i) 1 = true :=
        ascii_charBoundary _ 1 (fun b hb => h128 b (List.mem_of_mem_drop hb))
      rw [hcb1]
      simp only [Bool.not_true, Bool.false_eq_true, if_false]
      rw [hcb2]
      simp only [Bool.not_true, Bool.false_eq_true, if_false]
      rw [kvLines]
      have hdd : (line.drop i).drop 1 = line.drop (i + 1) := by
        rw [List.drop_drop, Nat.add_comm]
      rw [hdd]
      rfl

/-- C8 counterexample.  The claim requires, for every line including ones
with leading whitespace, an error when the `:` is the line's last character
and otherwise the pair (text before `:`, text after `:` trimmed).  The code
finds the colon in the trimmed line but splits the untrimmed line at that
index: ` a:` — colon last, so the claim demands the malformed error — parses
successfully to the pair `(" ", ":")`; and ` file: a` — the claim demands
`(" file", "a")` — parses to `(" fil", ": a")`. -/
theorem C8_trim_split_mismatch :
    parse_key_value_response (strB " a:") =
      some (.ok [(strB " ", [strB ":"])]) ∧
    parse_key_value_response (strB " file: a") =
      some (.ok [(strB " fil", [strB ": a"])]) := by
  refine ⟨by decide, by decide⟩

/-- Witness for C8: the amended per-line contract instantiated on the
concrete line `file: a`. -/
theorem C8_line_parser_amended_witness :
    parse_key_value_response (strB "file: a") =
      some (.ok [(strB "file", [strB "a"])]) := by
  have h := C8_line_parser_amended.2 (strB "file: a") (by decide) (by decide) (by decide)
  rw [h]
  decide

theorem parseGo_fields_append (entries : List (String × String))
    (tail : List (String × String)) :
    Playlist.parseGo none (playlistFields entries ++ tail) =
      match Playlist.parseGo none tail with
      | .ok l => .ok (playlistRecords entries ++ l)
      | .error e => .error e := by
  induction entries with
  | nil =>
    simp only [playlistFields, List.flatMap_nil, List.nil_append, playlistRecords,
      List.map_nil]
    cases h : Playlist.parseGo none tail with
    | ok l => simp
    | error e => simp
  | cons e es ih =>
    obtain ⟨n, t⟩ := e
    simp only [playlistFields, List.flatMap_cons, List.cons_append, List.nil_append]
    rw [Playlist.parseGo, if_pos rfl]
    rw [Playlist.parseGo, if_pos rfl]
    show (match Playlist.parseGo none (playlistFields es ++ tail) with
      | Except.error e => Except.error e
      | Except.ok tl =>
        Except.ok ({ name := n, last_modified := ⟨t⟩ : Playlist } :: tl)) = _
    rw [ih]
    cases h : Playlist.parseGo none tail with
    | ok l => simp [playlistRecords]
    | error e => simp

/-- C9.  `Playlist::parse_frame` groups the field sequence into one record
per consecutive `(playlist, name)` / `(Last-Modified, timestamp)` pair, in
input order (first conjunct), and fails with the unexpected-field error as
soon as a key other than `playlist` appears where a playlist name is
expected (second conjunct) or a key other than `Last-Modified` appears
where a timestamp is expected (third conjunct). -/
theorem C9_playlist_grouping :
    (∀ entries : List (String × String),
      Playlist.parse_frame (playlistFields entries) = .ok (playlistRecords entries)) ∧
    (∀ (entries : List (String × String)) (k v : String)
      (rest : List (String × String)), k ≠ "playlist" →
      Playlist.parse_frame (playlistFields entries ++ (k, v) :: rest) =
        .error (.unexpected_field "playlist" k)) ∧
    (∀ (entries : List (String × String)) (n k v : String)
      (rest : List (String × String)), k ≠ "Last-Modified" →
      Playlist.parse_frame (playlistFields entries ++ ("playlist", n) :: (k, v) :: rest) =
        .error (.unexpected_field "Last-Modified" k)) := by
  refine ⟨?_, ?_, ?_⟩
  · intro entries
    have h := parseGo_fields_append entries []
    simpa [Playlist.parse_frame, Playlist.parseGo] using h
  · intro entries k v rest hk
    have h := parseGo_fields_append entries ((k, v) :: rest)
    rw [Playlist.parse_frame, h, Playlist.parseGo, if_neg hk]
  · intro entries n k v rest hk
    have h := parseGo_fields_append entries (("playlist", n) :: (k, v) :: rest)
    rw [Playlist.parse_frame, h, Playlist.parseGo, if_pos rfl,
      Playlist.parseGo, if_neg hk]

/-- Witness for C9: the unexpected-field failure instantiated on the
concrete frame `playlist: a, Last-Modified: t, x: v`. -/
theorem C9_playlist_grouping_witness :
    Playlist.parse_frame (playlistFields [("a", "t")] ++ [("x", "v")]) =
      .error (.unexpected_field "playlist" "x") :=
  C9_playlist_grouping.2.1 [("a", "t")] "x" "v" [] (by decide)

/-- C10.  A trailing `(playlist, name)` field with nothing after it is
silently dropped: `parse_frame` still returns `Ok` with only the complete
pairs, reporting no error for the dangling final entry. -/
theorem C10_dangling_name_dropped (entries : List (String × String)) (name : String) :
    Playlist.parse_frame (playlistFields entries ++ [("playlist", name)]) =
      .ok (playlistRecords entries) := by
  have h := parseGo_fields_append entries [("playlist", name)]
  rw [Playlist.parse_frame, h, Playlist.parseGo, if_pos rfl]
  show (match (Except.ok [] : Except TypedResponseError (List Playlist)) with
    | Except.ok l => Except.ok (playlistRecords entries ++ l)
    | Except.error e => Except.error e) = _
  simp
